import Mathlib

/-!
# Verification of the merge-queue core

Shallow embedding of the queue persistence engine (`QueueStateManager`),
the processing orchestrator (`processPR`) and the branch updater
(`BranchUpdater.waitForTests`) of the merge-queue repository.

Conventions of the embedding:
* ISO-8601 timestamp strings are represented by their epoch value as a `Nat`
  (the source compares them via `new Date(s).getTime()`).
* JavaScript `Array.prototype.sort` with a comparator over a total preorder
  is required to be a stable sort consistent with the comparator; its unique
  result is modelled by `List.mergeSort` with the boolean relation derived
  from the comparator.
* Methods that mutate the shared document in place inside `atomicUpdate`
  are modelled as pure functions from the document to (result, document);
  a thrown error is an `Except.error`, and since `atomicUpdate` applies the
  mutation before attempting any write, an error leaves the persisted
  document unchanged (captured by `applyOp`).
-/

/-- `QueueState.stats` (types/queue): monotone counters. -/
structure QueueStats where
  total_processed : Nat
  total_merged : Nat
  total_failed : Nat
deriving Repr, DecidableEq

/-- `HistoryEntry.result` / `MergeResult` values: merged, failed, conflict, removed. -/
inductive MergeResult where
  | merged
  | failed
  | conflict
  | removed
deriving Repr, DecidableEq

/-- `QueuedPR` (types/queue): entries of `state.queue`. `added_at` is the
epoch value of the ISO timestamp string. -/
structure QueuedPR where
  pr_number : Nat
  added_at : Nat
  added_by : String
  sha : String
  priority : Int
deriving Repr, DecidableEq

/-- `CurrentPR` (types/queue): the entry being processed. -/
structure CurrentPR where
  pr_number : Nat
  status : String
  started_at : Nat
  updated_at : Nat
deriving Repr, DecidableEq

/-- `HistoryEntry` (types/queue). -/
structure HistoryEntry where
  pr_number : Nat
  result : MergeResult
  completed_at : Nat
  duration_seconds : Nat
deriving Repr, DecidableEq

/-- `QueueState` (types/queue): the persisted queue document. -/
structure QueueState where
  version : String
  updated_at : Nat
  current : Option CurrentPR
  queue : List QueuedPR
  history : List HistoryEntry
  stats : QueueStats
deriving Repr, DecidableEq

/-- `StateError` (utils/errors), carrying its message. -/
structure StateError where
  msg : String
deriving Repr, DecidableEq

/-- `createEmptyState` (queue-state): the bootstrap document. The concrete
version string and timestamp are irrelevant to every property below. -/
def createEmptyState : QueueState :=
  { version := "1.0.0"
    updated_at := 0
    current := none
    queue := []
    history := []
    stats := { total_processed := 0, total_merged := 0, total_failed := 0 } }

/-- The comparator of `addToQueue` as a boolean "may come first" relation:
`(a, b) => a.priority !== b.priority ? b.priority - a.priority
         : new Date(a.added_at).getTime() - new Date(b.added_at).getTime()`
so `a` may precede `b` iff `a.priority > b.priority`, or the priorities are
equal and `a.added_at ≤ b.added_at`. -/
def queueLE (a b : QueuedPR) : Bool :=
  if a.priority = b.priority then a.added_at ≤ b.added_at
  else b.priority < a.priority

/-- The mutation of `QueueStateManager.addToQueue` (run through
`atomicUpdate`): no-op position when the PR is already queued, `0` when it
is the `current` entry, otherwise push and re-sort by `queueLE`. -/
def addToQueue (pr : QueuedPR) (s : QueueState) : Nat × QueueState :=
  if s.queue.any (fun q => q.pr_number == pr.pr_number) then
    (s.queue.findIdx (fun q => q.pr_number == pr.pr_number) + 1, s)
  else if (s.current.map CurrentPR.pr_number) == some pr.pr_number then
    (0, s)
  else
    let queue := (s.queue ++ [pr]).mergeSort queueLE
    (queue.findIdx (fun q => q.pr_number == pr.pr_number) + 1, { s with queue := queue })

/-- The mutation of `QueueStateManager.removeFromQueue`: splice out the
entry if present, report whether it was found. -/
def removeFromQueue (prNumber : Nat) (s : QueueState) : Bool × QueueState :=
  match s.queue.findIdx? (fun q => q.pr_number == prNumber) with
  | none => (false, s)
  | some i => (true, { s with queue := s.queue.eraseIdx i })

/-- The mutation of `QueueStateManager.setCurrentPR`: unconditionally store
the argument in `state.current`. -/
def setCurrentPR (current : Option CurrentPR) (s : QueueState) : QueueState :=
  { s with current := current }

/-- The mutation of `QueueStateManager.updateCurrentStatus`: throws when no
`current` entry exists, otherwise updates `status` (and `updated_at` when
supplied). -/
def updateCurrentStatus (status : String) (updated_at : Option Nat)
    (s : QueueState) : Except StateError QueueState :=
  match s.current with
  | none => Except.error { msg := "No current PR to update" }
  | some cur =>
      let cur2 : CurrentPR :=
        { cur with status := status, updated_at := updated_at.getD cur.updated_at }
      Except.ok { s with current := some cur2 }

/-- The mutation of `QueueStateManager.completeCurrentPR`: throws when no
`current` entry exists; otherwise removes the current PR from the queue,
prepends the history entry (keeping only the last 100), updates stats from
`entry.result`, and clears `current`. -/
def completeCurrentPR (entry : HistoryEntry) (s : QueueState) :
    Except StateError QueueState :=
  match s.current with
  | none => Except.error { msg := "No current PR to complete" }
  | some cur =>
      let queue := s.queue.filter (fun q => q.pr_number != cur.pr_number)
      let history0 := entry :: s.history
      let history := if history0.length > 100 then history0.take 100 else history0
      let stats1 :=
        { s.stats with total_processed := s.stats.total_processed + 1 }
      let stats :=
        match entry.result with
        | MergeResult.merged => { stats1 with total_merged := stats1.total_merged + 1 }
        | MergeResult.failed => { stats1 with total_failed := stats1.total_failed + 1 }
        | MergeResult.conflict => { stats1 with total_failed := stats1.total_failed + 1 }
        | MergeResult.removed => stats1
      Except.ok { s with queue := queue, history := history, stats := stats, current := none }

/-- One ledger operation of `QueueStateManager`, as dispatched through
`atomicUpdate`. -/
inductive LedgerOp where
  | add (pr : QueuedPR)
  | remove (prNumber : Nat)
  | setCurrent (current : Option CurrentPR)
  | updateStatus (status : String) (updated_at : Option Nat)
  | complete (entry : HistoryEntry)

/-- The persisted document after one ledger operation. A mutation that
throws leaves the persisted document unchanged, because `atomicUpdate`
applies the mutation before attempting the write, and the exception
propagates out of the read-mutate-write cycle. -/
def applyOp : LedgerOp → QueueState → QueueState
  | LedgerOp.add pr, s => (addToQueue pr s).2
  | LedgerOp.remove n, s => (removeFromQueue n s).2
  | LedgerOp.setCurrent c, s => setCurrentPR c s
  | LedgerOp.updateStatus st u, s =>
      match updateCurrentStatus st u s with
      | Except.ok s2 => s2
      | Except.error _ => s
  | LedgerOp.complete e, s =>
      match completeCurrentPR e s with
      | Except.ok s2 => s2
      | Except.error _ => s

/-! ## Helper lemmas on the queue ordering -/

/-- Default entry used only for out-of-range `getD` reads in statements. -/
def defaultPR : QueuedPR :=
  { pr_number := 0, added_at := 0, added_by := "", sha := "", priority := 0 }

theorem queueLE_eq_true_iff (a b : QueuedPR) :
    queueLE a b = true ↔
      (a.priority = b.priority ∧ a.added_at ≤ b.added_at) ∨
      (a.priority ≠ b.priority ∧ b.priority < a.priority) := by
  unfold queueLE
  split <;> simp [*]

theorem queueLE_trans (a b c : QueuedPR) (hab : queueLE a b = true)
    (hbc : queueLE b c = true) : queueLE a c = true := by
  rw [queueLE_eq_true_iff] at *
  rcases hab with ⟨h1, h2⟩ | ⟨h1, h2⟩ <;> rcases hbc with ⟨h3, h4⟩ | ⟨h3, h4⟩ <;>
    [left; right; right; right] <;> constructor <;> omega

theorem queueLE_total (a b : QueuedPR) : (queueLE a b || queueLE b a) = true := by
  rw [Bool.or_eq_true, queueLE_eq_true_iff, queueLE_eq_true_iff]
  omega

/-- The queue respects the `addToQueue` comparator pairwise. -/
def queueOrdered (l : List QueuedPR) : Prop :=
  l.Pairwise (fun a b => queueLE a b = true)

theorem queueOrdered_mergeSort (l : List QueuedPR) :
    queueOrdered (l.mergeSort queueLE) :=
  @List.sorted_mergeSort QueuedPR queueLE
    (fun a b c hab hbc => queueLE_trans a b c hab hbc)
    (fun a b => queueLE_total a b) l

theorem addToQueue_queue_cases (pr : QueuedPR) (s : QueueState) :
    (addToQueue pr s).2.queue = s.queue ∨
    (addToQueue pr s).2.queue = (s.queue ++ [pr]).mergeSort queueLE := by
  unfold addToQueue
  split
  · exact Or.inl rfl
  · split
    · exact Or.inl rfl
    · exact Or.inr rfl

theorem addToQueue_queueOrdered (pr : QueuedPR) (s : QueueState)
    (h : queueOrdered s.queue) : queueOrdered (addToQueue pr s).2.queue := by
  rcases addToQueue_queue_cases pr s with hc | hc <;> rw [hc]
  · exact h
  · exact queueOrdered_mergeSort (s.queue ++ [pr])

/-! ## Concrete documents and entries used by the witnesses -/

def prA : QueuedPR :=
  { pr_number := 1, added_at := 5, added_by := "alice", sha := "a1", priority := 2 }

def prB : QueuedPR :=
  { pr_number := 2, added_at := 3, added_by := "bob", sha := "b2", priority := 0 }

def prC : QueuedPR :=
  { pr_number := 3, added_at := 4, added_by := "carol", sha := "c3", priority := 2 }

def cur0 : CurrentPR :=
  { pr_number := 7, status := "validating", started_at := 1, updated_at := 1 }

def cur1 : CurrentPR :=
  { pr_number := 8, status := "validating", started_at := 2, updated_at := 2 }

def histEntry0 : HistoryEntry :=
  { pr_number := 7, result := MergeResult.merged, completed_at := 100, duration_seconds := 10 }

def histEntry1 : HistoryEntry :=
  { pr_number := 7, result := MergeResult.removed, completed_at := 100, duration_seconds := 10 }

/-- A document whose `current` entry is set. -/
def stateWithCurrent : QueueState :=
  { createEmptyState with current := some cur0 }

/-- A document with a one-element (trivially ordered) queue. -/
def stateWithA : QueueState :=
  { createEmptyState with queue := [prA] }

/-- C6. After any enqueue (`addToQueue`) of a PR into an ordered queue, the
queue is sorted by priority descending with ties broken by enqueue time
ascending: for any two positions `i < j`, the entry at `j` has priority at
most that of the entry at `i`, and on equal priorities the entry at `i` was
enqueued no later than the entry at `j`. -/
theorem addToQueue_sorted_spec (pr : QueuedPR) (s : QueueState)
    (h : queueOrdered s.queue) (i j : Nat) (hij : i < j)
    (hj : j < (addToQueue pr s).2.queue.length) :
    ((addToQueue pr s).2.queue.getD j defaultPR).priority ≤
      ((addToQueue pr s).2.queue.getD i defaultPR).priority ∧
    (((addToQueue pr s).2.queue.getD i defaultPR).priority =
        ((addToQueue pr s).2.queue.getD j defaultPR).priority →
      ((addToQueue pr s).2.queue.getD i defaultPR).added_at ≤
        ((addToQueue pr s).2.queue.getD j defaultPR).added_at) := by
  have hp : queueOrdered (addToQueue pr s).2.queue := addToQueue_queueOrdered pr s h
  have hi : i < (addToQueue pr s).2.queue.length := Nat.lt_trans hij hj
  rw [queueOrdered, List.pairwise_iff_get] at hp
  have hle := hp ⟨i, hi⟩ ⟨j, hj⟩ hij
  rw [queueLE_eq_true_iff] at hle
  simp only [List.get_eq_getElem] at hle
  rw [List.getD_eq_getElem _ defaultPR hi, List.getD_eq_getElem _ defaultPR hj]
  omega

unseal List.merge List.mergeSort in
/-- C6 witness: enqueueing `prC` (priority 2, enqueued at 4) into a queue
holding `prA` (priority 2, enqueued at 5) yields an ordered queue; checked
at the positions 0 < 1. -/
theorem addToQueue_sorted_witness :
    ((addToQueue prC stateWithA).2.queue.getD 1 defaultPR).priority ≤
      ((addToQueue prC stateWithA).2.queue.getD 0 defaultPR).priority ∧
    (((addToQueue prC stateWithA).2.queue.getD 0 defaultPR).priority =
        ((addToQueue prC stateWithA).2.queue.getD 1 defaultPR).priority →
      ((addToQueue prC stateWithA).2.queue.getD 0 defaultPR).added_at ≤
        ((addToQueue prC stateWithA).2.queue.getD 1 defaultPR).added_at) :=
  addToQueue_sorted_spec prC stateWithA
    (by simp [stateWithA, createEmptyState, queueOrdered]) 0 1 (by decide) (by decide)

/-- C7. Enqueueing a PR whose number is already queued does not add a second
entry and returns the existing entry's 1-based position; enqueueing the
`current` PR returns 0 and adds nothing; enqueueing the same PR twice in
succession returns the same position both times and leaves the document as
after the first call; queue entries stay unique by PR number. -/
theorem addToQueue_dedup_spec (pr : QueuedPR) (s : QueueState) :
    (s.queue.any (fun q => q.pr_number == pr.pr_number) = true →
      (addToQueue pr s).2 = s ∧
      (addToQueue pr s).1 =
        s.queue.findIdx (fun q => q.pr_number == pr.pr_number) + 1) ∧
    (s.queue.any (fun q => q.pr_number == pr.pr_number) = false →
      s.current.map CurrentPR.pr_number = some pr.pr_number →
      addToQueue pr s = (0, s)) ∧
    addToQueue pr (addToQueue pr s).2 = ((addToQueue pr s).1, (addToQueue pr s).2) ∧
    ((s.queue.map QueuedPR.pr_number).Nodup →
      ((addToQueue pr s).2.queue.map QueuedPR.pr_number).Nodup) := by
  refine ⟨?_, ?_, ?_, ?_⟩
  · intro hq
    constructor <;> simp [addToQueue, hq]
  · intro hq hc
    simp [addToQueue, hq, hc]
  · by_cases hq : s.queue.any (fun q => q.pr_number == pr.pr_number) = true
    · simp [addToQueue, hq]
    · by_cases hc : (s.current.map CurrentPR.pr_number == some pr.pr_number) = true
      · simp [addToQueue, hq, hc]
      · have hq2 : ((s.queue ++ [pr]).mergeSort queueLE).any
            (fun q => q.pr_number == pr.pr_number) = true := by
          rw [List.any_eq_true]
          exact ⟨pr, ((List.mergeSort_perm _ _).mem_iff).mpr (by simp), by simp⟩
        simp [addToQueue, hq, hc, hq2]
  · intro hnd
    by_cases hq : s.queue.any (fun q => q.pr_number == pr.pr_number) = true
    · simpa [addToQueue, hq] using hnd
    · by_cases hc : (s.current.map CurrentPR.pr_number == some pr.pr_number) = true
      · simpa [addToQueue, hq, hc] using hnd
      · have hqueue : (addToQueue pr s).2.queue = (s.queue ++ [pr]).mergeSort queueLE := by
          simp [addToQueue, hq, hc]
        rw [hqueue,
          List.Perm.nodup_iff ((List.mergeSort_perm (s.queue ++ [pr]) queueLE).map
            QueuedPR.pr_number),
          List.map_append]
        have hnin : pr.pr_number ∉ s.queue.map QueuedPR.pr_number := by
          rw [List.mem_map]
          rintro ⟨x, hx, hxe⟩
          have hfalse := List.any_eq_false.mp (Bool.not_eq_true _ ▸ hq) x hx
          simp only [beq_iff_eq] at hfalse
          exact hfalse hxe
        simp [List.nodup_append, hnd, hnin]

/-- C7 witness: `prA` is already queued in `stateWithA`; enqueueing it again
returns position 1 and leaves the document unchanged. -/
theorem addToQueue_dedup_witness :
    (addToQueue prA stateWithA).2 = stateWithA ∧ (addToQueue prA stateWithA).1 = 1 := by
  have h := (addToQueue_dedup_spec prA stateWithA).1 (by decide)
  exact ⟨h.1, by rw [h.2]; decide⟩

/-- C4. Completing while no `current` entry exists raises the
invalid-transition `StateError` and — because the error escapes the
read-mutate-write cycle before any write — leaves the persisted document
unchanged in all of queue, history, stats and current. -/
theorem completeCurrentPR_no_current_spec (entry : HistoryEntry) (s : QueueState)
    (h : s.current = none) :
    (∃ err : StateError, completeCurrentPR entry s = Except.error err) ∧
    (applyOp (LedgerOp.complete entry) s).queue = s.queue ∧
    (applyOp (LedgerOp.complete entry) s).history = s.history ∧
    (applyOp (LedgerOp.complete entry) s).stats = s.stats ∧
    (applyOp (LedgerOp.complete entry) s).current = s.current := by
  have he : completeCurrentPR entry s = Except.error { msg := "No current PR to complete" } := by
    unfold completeCurrentPR
    rw [h]
  refine ⟨⟨_, he⟩, ?_, ?_, ?_, ?_⟩ <;> simp [applyOp, he]

/-- C4 witness: the empty bootstrap document has no `current` entry;
completing on it errors and changes nothing. -/
theorem completeCurrentPR_no_current_witness :
    (∃ err : StateError, completeCurrentPR histEntry0 createEmptyState = Except.error err) ∧
    (applyOp (LedgerOp.complete histEntry0) createEmptyState).queue = createEmptyState.queue ∧
    (applyOp (LedgerOp.complete histEntry0) createEmptyState).history = createEmptyState.history ∧
    (applyOp (LedgerOp.complete histEntry0) createEmptyState).stats = createEmptyState.stats ∧
    (applyOp (LedgerOp.complete histEntry0) createEmptyState).current = createEmptyState.current :=
  completeCurrentPR_no_current_spec histEntry0 createEmptyState rfl

/-- C5 counterexample: `setCurrentPR` (the `beginProcessing` of the spec)
performs no invalid-transition check. On a document whose `current` is
already `cur0`, setting a different entry `cur1` succeeds and replaces the
existing `current` entry instead of failing. -/
theorem setCurrentPR_replaces_counterexample :
    stateWithCurrent.current = some cur0 ∧
    cur0.pr_number ≠ cur1.pr_number ∧
    (setCurrentPR (some cur1) stateWithCurrent).current = some cur1 := by
  refine ⟨rfl, by decide, rfl⟩

/-- C5 amended: for every document state — including one whose `current` is
already set — `setCurrentPR` returns normally and overwrites `current` with
its argument, leaving queue, history and stats unchanged; it never raises
an invalid-transition error. -/
theorem setCurrentPR_overwrites (c : Option CurrentPR) (s : QueueState) :
    (setCurrentPR c s).current = c ∧
    (setCurrentPR c s).queue = s.queue ∧
    (setCurrentPR c s).history = s.history ∧
    (setCurrentPR c s).stats = s.stats :=
  ⟨rfl, rfl, rfl, rfl⟩

/-! ## Completion characterized on a document with a current entry -/

/-- The stats update of `completeCurrentPR`, split out for reuse. -/
def completeStats (r : MergeResult) (st : QueueStats) : QueueStats :=
  let stats1 := { st with total_processed := st.total_processed + 1 }
  match r with
  | MergeResult.merged => { stats1 with total_merged := stats1.total_merged + 1 }
  | MergeResult.failed => { stats1 with total_failed := stats1.total_failed + 1 }
  | MergeResult.conflict => { stats1 with total_failed := stats1.total_failed + 1 }
  | MergeResult.removed => stats1

theorem completeCurrentPR_some (entry : HistoryEntry) (s : QueueState)
    (cur : CurrentPR) (h : s.current = some cur) :
    completeCurrentPR entry s = Except.ok
      { s with
        queue := s.queue.filter (fun q => q.pr_number != cur.pr_number),
        history := (entry :: s.history).take 100,
        stats := completeStats entry.result s.stats,
        current := none } := by
  unfold completeCurrentPR
  rw [h]
  have hh : (if (entry :: s.history).length > 100
      then (entry :: s.history).take 100 else entry :: s.history) =
      (entry :: s.history).take 100 := by
    split
    · rfl
    · exact (List.take_of_length_le (by omega)).symm
  simp only [hh, completeStats]

/-- Begin processing `ce.1` and complete it with history entry `ce.2`: the
way the orchestrator drives one full completion through the ledger. -/
def processOne (ce : CurrentPR × HistoryEntry) (s : QueueState) : QueueState :=
  applyOp (LedgerOp.complete ce.2) (setCurrentPR (some ce.1) s)

/-- A sequence of begin-processing/complete rounds. -/
def completeMany (steps : List (CurrentPR × HistoryEntry)) (s : QueueState) : QueueState :=
  steps.foldl (fun t ce => processOne ce t) s

theorem take_hundred_append (l m : List HistoryEntry) :
    (l ++ m.take 100).take 100 = (l ++ m).take 100 := by
  rw [List.take_append_eq_append_take, List.take_append_eq_append_take, List.take_take,
    Nat.min_eq_left (Nat.sub_le _ _)]

theorem processOne_history (ce : CurrentPR × HistoryEntry) (s : QueueState) :
    (processOne ce s).history = (ce.2 :: s.history).take 100 := by
  unfold processOne
  simp only [applyOp,
    completeCurrentPR_some ce.2 (setCurrentPR (some ce.1) s) ce.1 rfl]
  rfl

theorem completeMany_history_aux (steps : List (CurrentPR × HistoryEntry)) :
    ∀ s : QueueState, s.history.length ≤ 100 →
      (completeMany steps s).history =
        ((steps.map Prod.snd).reverse ++ s.history).take 100 := by
  induction steps with
  | nil =>
    intro s h
    simp [completeMany, List.take_of_length_le h]
  | cons ce rest ih =>
    intro s h
    have hstep : (processOne ce s).history = (ce.2 :: s.history).take 100 :=
      processOne_history ce s
    have hlen : (processOne ce s).history.length ≤ 100 := by
      rw [hstep, List.length_take]
      omega
    have hrw : completeMany (ce :: rest) s = completeMany rest (processOne ce s) := rfl
    rw [hrw, ih _ hlen, hstep, take_hundred_append]
    congr 1
    simp [List.append_assoc]

/-- C8. After any non-empty sequence of completions, the history equals the
newest-first prefix of at most 100 of the completed entries (most recent
first) in front of the prior history, and its length never exceeds 100. -/
theorem completeMany_history_spec (steps : List (CurrentPR × HistoryEntry))
    (s : QueueState) (h : steps ≠ []) :
    (completeMany steps s).history =
      ((steps.map Prod.snd).reverse ++ s.history).take 100 ∧
    (completeMany steps s).history.length ≤ 100 := by
  match steps, h with
  | ce :: rest, _ =>
    have hstep : (processOne ce s).history = (ce.2 :: s.history).take 100 :=
      processOne_history ce s
    have hlen : (processOne ce s).history.length ≤ 100 := by
      rw [hstep, List.length_take]
      omega
    have hrw : completeMany (ce :: rest) s = completeMany rest (processOne ce s) := rfl
    constructor
    · rw [hrw, completeMany_history_aux rest _ hlen, hstep, take_hundred_append]
      congr 1
      simp [List.append_assoc]
    · rw [hrw, completeMany_history_aux rest _ hlen, List.length_take]
      omega

/-- C8 witness: one completion on the empty document yields exactly that
entry as history, of length at most 100. -/
theorem completeMany_history_witness :
    (completeMany [(cur0, histEntry0)] createEmptyState).history =
      (([(cur0, histEntry0)].map Prod.snd).reverse ++ createEmptyState.history).take 100 ∧
    (completeMany [(cur0, histEntry0)] createEmptyState).history.length ≤ 100 :=
  completeMany_history_spec [(cur0, histEntry0)] createEmptyState (by simp)

/-! ## Stats monotonicity -/

/-- Componentwise order on the stats counters. -/
def statsLE (a b : QueueStats) : Prop :=
  a.total_processed ≤ b.total_processed ∧
    a.total_merged ≤ b.total_merged ∧
    a.total_failed ≤ b.total_failed

theorem addToQueue_stats (pr : QueuedPR) (s : QueueState) :
    (addToQueue pr s).2.stats = s.stats := by
  unfold addToQueue
  split
  · rfl
  · split <;> rfl

theorem removeFromQueue_stats (prNumber : Nat) (s : QueueState) :
    (removeFromQueue prNumber s).2.stats = s.stats := by
  unfold removeFromQueue
  split <;> rfl

theorem updateCurrentStatus_stats (st : String) (u : Option Nat) (s : QueueState) :
    (applyOp (LedgerOp.updateStatus st u) s).stats = s.stats := by
  simp only [applyOp]
  unfold updateCurrentStatus
  rcases s.current with _ | cur <;> rfl

/-- C9. Stats counters are monotonically non-decreasing across every ledger
operation, and a completion on a document with a current entry increments
`total_processed` by exactly one, `total_merged` by one exactly on a merged
result, and `total_failed` by one exactly on a failed or conflict result. -/
theorem ledger_stats_monotone (op : LedgerOp) (s : QueueState) :
    statsLE s.stats (applyOp op s).stats ∧
    (∀ entry cur, op = LedgerOp.complete entry → s.current = some cur →
      (applyOp op s).stats.total_processed = s.stats.total_processed + 1 ∧
      (entry.result = MergeResult.merged →
        (applyOp op s).stats.total_merged = s.stats.total_merged + 1 ∧
        (applyOp op s).stats.total_failed = s.stats.total_failed) ∧
      ((entry.result = MergeResult.failed ∨ entry.result = MergeResult.conflict) →
        (applyOp op s).stats.total_failed = s.stats.total_failed + 1 ∧
        (applyOp op s).stats.total_merged = s.stats.total_merged) ∧
      (entry.result = MergeResult.removed →
        (applyOp op s).stats.total_merged = s.stats.total_merged ∧
        (applyOp op s).stats.total_failed = s.stats.total_failed)) := by
  constructor
  · cases op with
    | add pr =>
      rw [applyOp, addToQueue_stats]
      exact ⟨Nat.le_refl _, Nat.le_refl _, Nat.le_refl _⟩
    | remove n =>
      rw [applyOp, removeFromQueue_stats]
      exact ⟨Nat.le_refl _, Nat.le_refl _, Nat.le_refl _⟩
    | setCurrent c =>
      exact ⟨Nat.le_refl _, Nat.le_refl _, Nat.le_refl _⟩
    | updateStatus st u =>
      rw [updateCurrentStatus_stats]
      exact ⟨Nat.le_refl _, Nat.le_refl _, Nat.le_refl _⟩
    | complete e =>
      rcases hcur : s.current with _ | cur
      · have he : completeCurrentPR e s = Except.error { msg := "No current PR to complete" } := by
          unfold completeCurrentPR
          rw [hcur]
        simp only [applyOp, he]
        exact ⟨Nat.le_refl _, Nat.le_refl _, Nat.le_refl _⟩
      · simp only [applyOp, completeCurrentPR_some e s cur hcur]
        cases he : e.result <;> simp [completeStats, statsLE, he]
  · intro entry cur heq hcur
    subst heq
    simp only [applyOp, completeCurrentPR_some entry s cur hcur]
    cases he : entry.result <;> simp [completeStats, he]

/-- C9 witness: completing the current PR of `stateWithCurrent` with a
merged result keeps stats monotone and increments processed and merged. -/
theorem ledger_stats_monotone_witness :
    statsLE stateWithCurrent.stats
      (applyOp (LedgerOp.complete histEntry0) stateWithCurrent).stats ∧
    (applyOp (LedgerOp.complete histEntry0) stateWithCurrent).stats.total_processed =
      stateWithCurrent.stats.total_processed + 1 ∧
    (applyOp (LedgerOp.complete histEntry0) stateWithCurrent).stats.total_merged =
      stateWithCurrent.stats.total_merged + 1 := by
  have h := ledger_stats_monotone (LedgerOp.complete histEntry0) stateWithCurrent
  have h2 := h.2 histEntry0 cur0 rfl rfl
  exact ⟨h.1, h2.1, (h2.2.1 rfl).1⟩

/-- C10. A completion with result `conflict` increments `total_failed`
(conflicts count as failures) while a completion with result `removed`
increments only `total_processed`; consequently `total_processed` can
strictly exceed `total_merged + total_failed` after a removed completion. -/
theorem complete_conflict_removed_stats (s : QueueState) (cur : CurrentPR)
    (h : s.current = some cur) (e : HistoryEntry) :
    (e.result = MergeResult.conflict →
      (applyOp (LedgerOp.complete e) s).stats.total_failed = s.stats.total_failed + 1 ∧
      (applyOp (LedgerOp.complete e) s).stats.total_merged = s.stats.total_merged ∧
      (applyOp (LedgerOp.complete e) s).stats.total_processed = s.stats.total_processed + 1) ∧
    (e.result = MergeResult.removed →
      (applyOp (LedgerOp.complete e) s).stats.total_processed = s.stats.total_processed + 1 ∧
      (applyOp (LedgerOp.complete e) s).stats.total_merged = s.stats.total_merged ∧
      (applyOp (LedgerOp.complete e) s).stats.total_failed = s.stats.total_failed) ∧
    (∃ s2 : QueueState, ∃ cur2 : CurrentPR, ∃ e2 : HistoryEntry,
      s2.current = some cur2 ∧ e2.result = MergeResult.removed ∧
      (applyOp (LedgerOp.complete e2) s2).stats.total_merged +
          (applyOp (LedgerOp.complete e2) s2).stats.total_failed <
        (applyOp (LedgerOp.complete e2) s2).stats.total_processed) := by
  refine ⟨?_, ?_, ?_⟩
  · intro he
    simp only [applyOp, completeCurrentPR_some e s cur h]
    simp [completeStats, he]
  · intro he
    simp only [applyOp, completeCurrentPR_some e s cur h]
    simp [completeStats, he]
  · refine ⟨stateWithCurrent, cur0, histEntry1, rfl, rfl, ?_⟩
    decide

/-- C10 witness: a conflict completion on `stateWithCurrent` increments
`total_failed` and `total_processed` but not `total_merged`. -/
theorem complete_conflict_removed_stats_witness :
    (applyOp (LedgerOp.complete
        { histEntry0 with result := MergeResult.conflict }) stateWithCurrent).stats.total_failed =
      stateWithCurrent.stats.total_failed + 1 ∧
    (applyOp (LedgerOp.complete
        { histEntry0 with result := MergeResult.conflict }) stateWithCurrent).stats.total_merged =
      stateWithCurrent.stats.total_merged ∧
    (applyOp (LedgerOp.complete
        { histEntry0 with result := MergeResult.conflict }) stateWithCurrent).stats.total_processed =
      stateWithCurrent.stats.total_processed + 1 :=
  (complete_conflict_removed_stats stateWithCurrent cur0 rfl
    { histEntry0 with result := MergeResult.conflict }).1 rfl

/-! ## atomicUpdate: the compare-and-swap retry loop

`QueueStateManager.atomicUpdate(mutate, maxRetries)` runs
`for (attempt = 0; attempt <= maxRetries; attempt++)`, on each attempt
reading the latest state, applying `mutate`, and attempting the write.
A 409 conflict with `attempt < maxRetries` sleeps
`1000 * 2 ** attempt + Math.random() * 1000` ms and retries; a conflict on
the last attempt (and the unreachable post-loop line) throws
`ConcurrencyError`; any other write error is rethrown at once. The
environment is modelled by the oracle `reads` (the document returned by
`readState` on each attempt) and `writes` (the outcome of `writeState` on
each attempt); `jitter` is the value of `Math.random() * 1000` before each
retry. -/

/-- Outcome of one `writeState` call: success, 409 conflict
(`ConcurrencyError`), or any other error (`StateError`, rethrown at once). -/
inductive WriteOutcome where
  | ok
  | conflict
  | fatal
deriving Repr, DecidableEq

/-- Errors escaping `atomicUpdate`. -/
inductive UpdateError where
  | concurrency
  | state
deriving Repr, DecidableEq

/-- The backoff delay before retry number `attempt + 1`:
`1000 * Math.pow(2, attempt) + Math.random() * 1000`. -/
def backoffDelay (attempt jitter : Nat) : Nat :=
  1000 * 2 ^ attempt + jitter

/-- The retry loop of `atomicUpdate`, together with the trace of backoff
delays slept between attempts. `fuel` counts the loop iterations left
(`maxRetries + 1 - attempt`). -/
def atomicUpdateGo (reads : Nat → QueueState) (writes : Nat → WriteOutcome)
    (jitter : Nat → Nat) (mutate : QueueState → α × QueueState)
    (maxRetries : Nat) : Nat → Nat →
    Except UpdateError (α × QueueState) × List Nat
  | _, 0 => (Except.error UpdateError.concurrency, [])
  | attempt, fuel + 1 =>
    let r := mutate (reads attempt)
    match writes attempt with
    | WriteOutcome.ok => (Except.ok r, [])
    | WriteOutcome.fatal => (Except.error UpdateError.state, [])
    | WriteOutcome.conflict =>
        if attempt < maxRetries then
          let rest := atomicUpdateGo reads writes jitter mutate maxRetries
            (attempt + 1) fuel
          (rest.1, backoffDelay attempt (jitter attempt) :: rest.2)
        else (Except.error UpdateError.concurrency, [])

/-- `QueueStateManager.atomicUpdate` (default `maxRetries = 5`): result and
the list of delays slept, starting from attempt 0 with `maxRetries + 1`
loop iterations available. -/
def atomicUpdate (reads : Nat → QueueState) (writes : Nat → WriteOutcome)
    (jitter : Nat → Nat) (mutate : QueueState → α × QueueState)
    (maxRetries : Nat) : Except UpdateError (α × QueueState) × List Nat :=
  atomicUpdateGo reads writes jitter mutate maxRetries 0 (maxRetries + 1)

theorem atomicUpdateGo_success {α : Type} (reads : Nat → QueueState)
    (writes : Nat → WriteOutcome) (jitter : Nat → Nat)
    (mutate : QueueState → α × QueueState) (maxRetries k : Nat)
    (hk : k ≤ maxRetries) (hok : writes k = WriteOutcome.ok) :
    ∀ attempt fuel, attempt + fuel = maxRetries + 1 → attempt ≤ k →
      (∀ i, attempt ≤ i → i < k → writes i = WriteOutcome.conflict) →
      atomicUpdateGo reads writes jitter mutate maxRetries attempt fuel =
        (Except.ok (mutate (reads k)),
          (List.range' attempt (k - attempt)).map
            (fun i => backoffDelay i (jitter i))) := by
  intro attempt fuel
  induction fuel generalizing attempt with
  | zero => intro hsum hak _; omega
  | succ f ih =>
    intro hsum hak hconf
    rcases Nat.eq_or_lt_of_le hak with heq | hlt
    · subst heq
      unfold atomicUpdateGo
      rw [hok]
      simp
    · have hca : writes attempt = WriteOutcome.conflict :=
        hconf attempt (Nat.le_refl _) hlt
      unfold atomicUpdateGo
      rw [hca]
      have hlt2 : attempt < maxRetries := by omega
      rw [if_pos hlt2]
      rw [ih (attempt + 1) (by omega) hlt
        (fun i hi1 hi2 => hconf i (by omega) hi2)]
      have hr : List.range' attempt (k - attempt) =
          attempt :: List.range' (attempt + 1) (k - (attempt + 1)) := by
        have h1 : k - attempt = (k - (attempt + 1)) + 1 := by omega
        rw [h1, List.range'_succ]
      rw [hr]
      simp

theorem atomicUpdateGo_exhaust {α : Type} (reads : Nat → QueueState)
    (writes : Nat → WriteOutcome) (jitter : Nat → Nat)
    (mutate : QueueState → α × QueueState) (maxRetries : Nat)
    (hconf : ∀ i, i ≤ maxRetries → writes i = WriteOutcome.conflict) :
    ∀ attempt fuel, attempt + fuel = maxRetries + 1 →
      (atomicUpdateGo reads writes jitter mutate maxRetries attempt fuel).1 =
        Except.error UpdateError.concurrency := by
  intro attempt fuel
  induction fuel generalizing attempt with
  | zero => intro _; rfl
  | succ f ih =>
    intro hsum
    have hca : writes attempt = WriteOutcome.conflict := hconf attempt (by omega)
    unfold atomicUpdateGo
    rw [hca]
    by_cases hlt : attempt < maxRetries
    · rw [if_pos hlt]
      exact ih (attempt + 1) (by omega)
    · rw [if_neg hlt]

/-- C1. Every attempt of `atomicUpdate` re-reads the latest persisted
document and applies the mutation to that fresh read: when the first `k`
writes conflict and write `k` succeeds (`k ≤ maxRetries`), the result is
the mutation of the `k`-th read and the delays slept are exactly the
exponential-backoff-plus-jitter values for attempts `0..k-1`; each delay
lies in `[1000·2^a, 1000·2^a + 1000)` when the jitter is below 1000, so the
deterministic part doubles per retry; and when every one of the
`maxRetries + 1` attempts conflicts, `atomicUpdate` raises the fatal
`ConcurrencyError` instead of returning. -/
theorem atomicUpdate_retry_spec {α : Type} (reads : Nat → QueueState)
    (writes : Nat → WriteOutcome) (jitter : Nat → Nat)
    (mutate : QueueState → α × QueueState) (maxRetries : Nat) :
    (∀ k, k ≤ maxRetries → writes k = WriteOutcome.ok →
      (∀ i, i < k → writes i = WriteOutcome.conflict) →
      atomicUpdate reads writes jitter mutate maxRetries =
        (Except.ok (mutate (reads k)),
          (List.range k).map (fun i => backoffDelay i (jitter i)))) ∧
    (∀ a, jitter a < 1000 →
      1000 * 2 ^ a ≤ backoffDelay a (jitter a) ∧
      backoffDelay a (jitter a) < 1000 * 2 ^ a + 1000 ∧
      backoffDelay (a + 1) 0 = 2 * backoffDelay a 0) ∧
    ((∀ i, i ≤ maxRetries → writes i = WriteOutcome.conflict) →
      (atomicUpdate reads writes jitter mutate maxRetries).1 =
        Except.error UpdateError.concurrency) := by
  refine ⟨?_, ?_, ?_⟩
  · intro k hk hok hconf
    unfold atomicUpdate
    rw [atomicUpdateGo_success reads writes jitter mutate maxRetries k hk hok
      0 (maxRetries + 1) (by omega) (Nat.zero_le _)
      (fun i _ hi2 => hconf i hi2)]
    rw [List.range_eq_range']
    simp
  · intro a hj
    unfold backoffDelay
    refine ⟨by omega, by omega, ?_⟩
    rw [pow_succ]
    ring
  · intro hconf
    unfold atomicUpdate
    exact atomicUpdateGo_exhaust reads writes jitter mutate maxRetries hconf
      0 (maxRetries + 1) (by omega)

/-- C1 witness: with the default five retries, a run whose first two writes
conflict and whose third succeeds returns the mutation of the third read
(the reads oracle returns distinct documents per attempt) with backoff
delays 1000 and 2000 at zero jitter; a run with only conflicts errors. -/
theorem atomicUpdate_retry_witness :
    atomicUpdate
        (fun i => { createEmptyState with updated_at := i })
        (fun i => if i < 2 then WriteOutcome.conflict else WriteOutcome.ok)
        (fun _ => 0)
        (fun s => (s.updated_at, s))
        5 =
      (Except.ok (2, { createEmptyState with updated_at := 2 }), [1000, 2000]) ∧
    (atomicUpdate
        (fun _ => createEmptyState)
        (fun _ => WriteOutcome.conflict)
        (fun _ => 0)
        (fun s => (0, s))
        5).1 = Except.error UpdateError.concurrency := by
  constructor
  · have h := (atomicUpdate_retry_spec
      (fun i => { createEmptyState with updated_at := i })
      (fun i => if i < 2 then WriteOutcome.conflict else WriteOutcome.ok)
      (fun _ => 0)
      (fun s => (s.updated_at, s))
      5).1 2 (by omega) (by decide) (fun i hi => by
        have : i < 2 := hi
        simp [this])
    rw [h]
    rfl
  · exact (atomicUpdate_retry_spec
      (fun _ => createEmptyState)
      (fun _ => WriteOutcome.conflict)
      (fun _ => 0)
      (fun s => (0, s))
      5).2.2 (fun i _ => rfl)

/-! ## waitForTests: bounded polling for check completion

`BranchUpdater.waitForTests(prNumber, sha)` loops
`while (Date.now() - startTime < timeoutMs)`, each iteration fetching the
PR (return `false` when no longer open), asking the validator whether all
status checks on `sha` pass (return `true`), checking the commit statuses
for a failure or cancellation (return `false`), and otherwise sleeping
`pollInterval` ms. When the loop guard fails it throws a `TimeoutError`.
Modelling each iteration as taking exactly one poll interval (the sleep
dominating the API calls), iteration `i` starts at elapsed time
`i * pollInterval`, so the loop body runs for
`i < ⌈timeoutMs / pollInterval⌉` and the timeout fires after
`numPolls = ⌈timeoutMs / pollInterval⌉` pending polls. -/

/-- What one polling iteration observes: whether the PR is still open,
whether `validator.checkStatusChecks(sha)` reports all checks passing, and
whether any commit status is `failure` or `cancelled`. -/
structure PollObs where
  prOpen : Bool
  checksValid : Bool
  hasFailures : Bool
deriving Repr, DecidableEq

/-- Result of `waitForTests`: a returned boolean or the thrown
`TimeoutError`. -/
inductive WaitOutcome where
  | result (b : Bool)
  | timeoutErr
deriving Repr, DecidableEq

/-- One loop iteration of `waitForTests`, with `fuel` polls left before the
timeout. Order of the checks mirrors the source: open first, then
all-checks-pass, then explicit failures, else sleep and continue. -/
def waitForTestsGo (obs : Nat → PollObs) : Nat → Nat → WaitOutcome
  | _, 0 => WaitOutcome.timeoutErr
  | i, fuel + 1 =>
    let o := obs i
    if o.prOpen = false then WaitOutcome.result false
    else if o.checksValid then WaitOutcome.result true
    else if o.hasFailures then WaitOutcome.result false
    else waitForTestsGo obs (i + 1) fuel

/-- Number of poll iterations before the while guard
`i * pollInterval < timeoutMs` fails: `⌈timeoutMs / pollInterval⌉`. -/
def numPolls (timeoutMs pollIntervalMs : Nat) : Nat :=
  (timeoutMs + pollIntervalMs - 1) / pollIntervalMs

/-- `BranchUpdater.waitForTests` with
`timeoutMs = updateTimeoutMinutes * 60 * 1000` and the configured poll
interval (`TIMEOUTS.checkStatusPollMs`, 30 s by default). -/
def waitForTests (obs : Nat → PollObs) (updateTimeoutMinutes pollIntervalMs : Nat) :
    WaitOutcome :=
  waitForTestsGo obs 0 (numPolls (updateTimeoutMinutes * 60 * 1000) pollIntervalMs)

/-- A poll that observes an open PR with no verdict yet. -/
def pendingObs (o : PollObs) : Prop :=
  o.prOpen = true ∧ o.checksValid = false ∧ o.hasFailures = false

theorem waitForTestsGo_pending_step (obs : Nat → PollObs) (i fuel : Nat)
    (h : pendingObs (obs i)) :
    waitForTestsGo obs i (fuel + 1) = waitForTestsGo obs (i + 1) fuel := by
  obtain ⟨h1, h2, h3⟩ := h
  conv_lhs => unfold waitForTestsGo
  simp [h1, h2, h3]

theorem waitForTestsGo_skip_pending (obs : Nat → PollObs) (k : Nat) :
    ∀ i fuel, k ≤ fuel → (∀ j, j < k → pendingObs (obs (i + j))) →
      waitForTestsGo obs i fuel = waitForTestsGo obs (i + k) (fuel - k) := by
  induction k with
  | zero => intro i fuel _ _; rfl
  | succ m ih =>
    intro i fuel hk hp
    match fuel, hk with
    | f + 1, _ =>
      rw [waitForTestsGo_pending_step obs i f (by simpa using hp 0 (by omega))]
      rw [ih (i + 1) f (by omega) (fun j hj => by
        have := hp (j + 1) (by omega)
        simpa [Nat.add_assoc, Nat.add_comm 1 j] using this)]
      have e1 : i + 1 + m = i + (m + 1) := by omega
      have e2 : f - m = f + 1 - (m + 1) := by omega
      rw [e1, e2]

/-- C3. For every run of `waitForTests` in which the first `k` polls are
pending and `k` is below the poll budget: if poll `k` sees the PR closed
the call returns `false`; if it sees the PR open and all checks passing it
returns `true`; if it sees the PR open, checks not yet passing and some
check failed or cancelled it returns `false`. And when every poll within
the budget is pending, the call raises the timeout error rather than ever
returning `false`. -/
theorem waitForTests_spec (obs : Nat → PollObs)
    (updateTimeoutMinutes pollIntervalMs : Nat) (k : Nat)
    (hk : k < numPolls (updateTimeoutMinutes * 60 * 1000) pollIntervalMs)
    (hpend : ∀ j, j < k → pendingObs (obs j)) :
    ((obs k).prOpen = false →
      waitForTests obs updateTimeoutMinutes pollIntervalMs = WaitOutcome.result false) ∧
    ((obs k).prOpen = true → (obs k).checksValid = true →
      waitForTests obs updateTimeoutMinutes pollIntervalMs = WaitOutcome.result true) ∧
    ((obs k).prOpen = true → (obs k).checksValid = false → (obs k).hasFailures = true →
      waitForTests obs updateTimeoutMinutes pollIntervalMs = WaitOutcome.result false) ∧
    ((∀ j, j < numPolls (updateTimeoutMinutes * 60 * 1000) pollIntervalMs →
        pendingObs (obs j)) →
      waitForTests obs updateTimeoutMinutes pollIntervalMs = WaitOutcome.timeoutErr) := by
  have hskip : waitForTests obs updateTimeoutMinutes pollIntervalMs =
      waitForTestsGo obs k
        (numPolls (updateTimeoutMinutes * 60 * 1000) pollIntervalMs - k) := by
    unfold waitForTests
    rw [waitForTestsGo_skip_pending obs k 0
      (numPolls (updateTimeoutMinutes * 60 * 1000) pollIntervalMs)
      (by omega) (fun j hj => by simpa using hpend j hj)]
    simp
  have hfuel : numPolls (updateTimeoutMinutes * 60 * 1000) pollIntervalMs - k =
      (numPolls (updateTimeoutMinutes * 60 * 1000) pollIntervalMs - k - 1) + 1 := by
    omega
  refine ⟨?_, ?_, ?_, ?_⟩
  · intro h1
    rw [hskip, hfuel]
    unfold waitForTestsGo
    simp [h1]
  · intro h1 h2
    rw [hskip, hfuel]
    unfold waitForTestsGo
    simp [h1, h2]
  · intro h1 h2 h3
    rw [hskip, hfuel]
    unfold waitForTestsGo
    simp [h1, h2, h3]
  · intro hall
    unfold waitForTests
    have hgo : ∀ n i, (∀ j, j < n → pendingObs (obs (i + j))) →
        waitForTestsGo obs i n = WaitOutcome.timeoutErr := by
      intro n
      induction n with
      | zero => intro i _; rfl
      | succ m ih =>
        intro i hp
        rw [waitForTestsGo_pending_step obs i m (by simpa using hp 0 (by omega))]
        exact ih (i + 1) (fun j hj => by
          have := hp (j + 1) (by omega)
          simpa [Nat.add_assoc, Nat.add_comm 1 j] using this)
    exact hgo _ 0 (fun j hj => by simpa using hall j (by simpa using hj))

/-- C3 witness: with a 1-minute timeout and 30 s polls (two polls), a run
whose first poll is pending and whose second reports success returns
`true`; a run that is pending at both polls raises the timeout error. -/
theorem waitForTests_witness :
    waitForTests
        (fun i => if i = 0
          then { prOpen := true, checksValid := false, hasFailures := false }
          else { prOpen := true, checksValid := true, hasFailures := false })
        1 30000 = WaitOutcome.result true ∧
    waitForTests
        (fun _ => { prOpen := true, checksValid := false, hasFailures := false })
        1 30000 = WaitOutcome.timeoutErr := by
  constructor
  · exact (waitForTests_spec
      (fun i => if i = 0
        then { prOpen := true, checksValid := false, hasFailures := false }
        else { prOpen := true, checksValid := true, hasFailures := false })
      1 30000 1 (by decide)
      (fun j hj => by
        have : j = 0 := by omega
        subst this
        exact ⟨rfl, rfl, rfl⟩)).2.1 rfl rfl
  · exact (waitForTests_spec
      (fun _ => { prOpen := true, checksValid := false, hasFailures := false })
      1 30000 0 (by decide) (fun j hj => by omega)).2.2.2
      (fun j _ => ⟨rfl, rfl, rfl⟩)

/-! ## processPR: the per-PR processing state machine

`processPR` (actions/process-queue) validates the PR, then runs
`while (isBehind && config.autoUpdateBranch)`: increment `updateAttempts`,
fail when `updateAttempts > config.maxUpdateRetries` ("base branch keeps
advancing"), call `updater.updateIfBehind` (conflict → result `conflict`;
not success → result `failed`), and on success re-check
`validator.isBehind`. After the loop: behind with auto-update disabled →
`failed`; then a final `validator.isBehind` gate → `failed` when positive;
only then is `api.mergePullRequest` invoked. The external world is an
oracle: `upd i` is the result of the `i`-th `updateIfBehind` call
(1-indexed like `updateAttempts`), `recheck i` the staleness re-check after
it, `finalBehind` the final gate's answer, and `mergeOk` whether the merge
call succeeds (an exception maps to `failed` in the catch-all). -/

/-- `UpdateResult` of `updater.updateIfBehind` (types/queue), the fields
`processPR` inspects. -/
structure UpdateResult where
  success : Bool
  conflict : Bool
deriving Repr, DecidableEq

/-- The fields of `validator.validate` that `processPR` inspects:
`validation.valid` and `validation.checks?.upToDate` (absent checks give
`isBehind = false` since only `=== false` counts). -/
structure ValidationOutcome where
  valid : Bool
  upToDate : Option Bool
deriving Repr, DecidableEq

/-- The configuration fields driving the loop. -/
structure ProcessConfig where
  autoUpdateBranch : Bool
  maxUpdateRetries : Nat
deriving Repr, DecidableEq

/-- How the update loop ends. -/
inductive LoopExit where
  | exhausted
  | conflictExit
  | updateFailed
  | finished (isBehind : Bool)
deriving Repr, DecidableEq

/-- The `while (isBehind && config.autoUpdateBranch)` loop. `budget` is
`maxUpdateRetries - (updateAttempts - 1)`: the number of update attempts
still allowed before `updateAttempts > maxUpdateRetries` fires. -/
def updateLoop (auto : Bool) (upd : Nat → UpdateResult) (recheck : Nat → Bool) :
    Bool → Nat → Nat → LoopExit
  | isBehind, _, 0 =>
    if isBehind && auto then LoopExit.exhausted else LoopExit.finished isBehind
  | isBehind, i, budget + 1 =>
    if isBehind && auto then
      let r := upd i
      if r.conflict then LoopExit.conflictExit
      else if !r.success then LoopExit.updateFailed
      else updateLoop auto upd recheck (recheck i) (i + 1) budget
    else LoopExit.finished isBehind

/-- Outcome of one `processPR` run: the returned `MergeResult` and whether
`api.mergePullRequest` was invoked. -/
structure ProcOutcome where
  result : MergeResult
  mergeInvoked : Bool
deriving Repr, DecidableEq

/-- `processPR`, with validation, the update/recheck oracles, the final
staleness gate and the merge call outcome as inputs. -/
def processPR (cfg : ProcessConfig) (validation : ValidationOutcome)
    (upd : Nat → UpdateResult) (recheck : Nat → Bool)
    (finalBehind : Bool) (mergeOk : Bool) : ProcOutcome :=
  if !validation.valid then
    { result := MergeResult.failed, mergeInvoked := false }
  else
    let isBehind0 := validation.upToDate == some false
    match updateLoop cfg.autoUpdateBranch upd recheck isBehind0 1
        cfg.maxUpdateRetries with
    | LoopExit.exhausted => { result := MergeResult.failed, mergeInvoked := false }
    | LoopExit.conflictExit => { result := MergeResult.conflict, mergeInvoked := false }
    | LoopExit.updateFailed => { result := MergeResult.failed, mergeInvoked := false }
    | LoopExit.finished behindAfter =>
      if behindAfter && !cfg.autoUpdateBranch then
        { result := MergeResult.failed, mergeInvoked := false }
      else if finalBehind then
        { result := MergeResult.failed, mergeInvoked := false }
      else if mergeOk then
        { result := MergeResult.merged, mergeInvoked := true }
      else
        { result := MergeResult.failed, mergeInvoked := true }

theorem updateLoop_always_behind (upd : Nat → UpdateResult) (recheck : Nat → Bool)
    (hupd : ∀ i, upd i = { success := true, conflict := false })
    (hre : ∀ i, recheck i = true) :
    ∀ budget i, updateLoop true upd recheck true i budget = LoopExit.exhausted := by
  intro budget
  induction budget with
  | zero => intro i; rfl
  | succ b ih =>
    intro i
    unfold updateLoop
    rw [hupd i]
    simp only [Bool.and_true, Bool.and_self, if_true]
    rw [hre i]
    exact ih (i + 1)

theorem updateLoop_finished_auto (upd : Nat → UpdateResult) (recheck : Nat → Bool) :
    ∀ budget isBehind i b, updateLoop true upd recheck isBehind i budget =
      LoopExit.finished b → b = false := by
  intro budget
  induction budget with
  | zero =>
    intro isBehind i b h
    cases isBehind with
    | false =>
      simp [updateLoop] at h
      exact h
    | true => simp [updateLoop] at h
  | succ bud ih =>
    intro isBehind i b h
    cases isBehind with
    | false =>
      simp [updateLoop] at h
      exact h
    | true =>
      unfold updateLoop at h
      simp only [Bool.and_self, if_true] at h
      by_cases hc : (upd i).conflict = true
      · simp [hc] at h
      · by_cases hs : (upd i).success = true
        · simp only [hc, hs, Bool.not_true, Bool.false_eq_true, if_false] at h
          exact ih (recheck i) (i + 1) b h
        · simp [hc, hs] at h

theorem processPR_final_behind_no_merge (cfg : ProcessConfig)
    (validation : ValidationOutcome) (upd : Nat → UpdateResult)
    (recheck : Nat → Bool) (mergeOk : Bool) :
    (processPR cfg validation upd recheck true mergeOk).mergeInvoked = false := by
  unfold processPR
  by_cases hv : validation.valid = true
  · rcases hh : updateLoop cfg.autoUpdateBranch upd recheck
        (validation.upToDate == some false) 1 cfg.maxUpdateRetries with
      _ | _ | _ | b <;> simp [hv, hh]
  · have hv2 : validation.valid = false := by
      cases hva : validation.valid
      · rfl
      · exact absurd hva hv
    simp [hv2]

/-- C2. When the branch is behind and auto-update is on, the orchestrator
repeats reconcile-then-recheck while `isBehind` stays true: if every
reconciliation succeeds but the branch is behind again after each one, the
bounded loop ends in result `failed` with no merge attempted. A run that
reaches the final staleness gate with the gate positive ends in `failed`
with no merge attempted. And `mergePullRequest` is never invoked unless the
final staleness check came back negative. -/
theorem processPR_staleness_spec (cfg : ProcessConfig)
    (validation : ValidationOutcome) (upd : Nat → UpdateResult)
    (recheck : Nat → Bool) (finalBehind mergeOk : Bool) :
    (cfg.autoUpdateBranch = true → validation.valid = true →
      validation.upToDate = some false →
      (∀ i, upd i = { success := true, conflict := false }) →
      (∀ i, recheck i = true) →
      processPR cfg validation upd recheck finalBehind mergeOk =
        { result := MergeResult.failed, mergeInvoked := false }) ∧
    (∀ b, validation.valid = true →
      updateLoop cfg.autoUpdateBranch upd recheck
          (validation.upToDate == some false) 1 cfg.maxUpdateRetries =
        LoopExit.finished b →
      (b && !cfg.autoUpdateBranch) = false →
      finalBehind = true →
      processPR cfg validation upd recheck finalBehind mergeOk =
        { result := MergeResult.failed, mergeInvoked := false }) ∧
    ((processPR cfg validation upd recheck finalBehind mergeOk).mergeInvoked = true →
      finalBehind = false) := by
  refine ⟨?_, ?_, ?_⟩
  · intro hauto hvalid hupto hupd hre
    unfold processPR
    rw [hvalid, hauto, hupto]
    simp [updateLoop_always_behind upd recheck hupd hre cfg.maxUpdateRetries 1]
  · intro b hvalid hloop hnb hfin
    unfold processPR
    simp [hvalid, hloop, hnb, hfin]
  · intro h
    cases hfb : finalBehind with
    | false => rfl
    | true =>
      rw [hfb] at h
      rw [processPR_final_behind_no_merge cfg validation upd recheck mergeOk] at h
      exact absurd h (by simp)

/-- C2 witness: a valid PR that starts behind, with auto-update on, two
allowed retries, successful updates and a trunk that keeps advancing, ends
in result `failed` with `mergePullRequest` never invoked. -/
theorem processPR_staleness_witness :
    processPR { autoUpdateBranch := true, maxUpdateRetries := 2 }
        { valid := true, upToDate := some false }
        (fun _ => { success := true, conflict := false })
        (fun _ => true) false true =
      { result := MergeResult.failed, mergeInvoked := false } :=
  (processPR_staleness_spec
    { autoUpdateBranch := true, maxUpdateRetries := 2 }
    { valid := true, upToDate := some false }
    (fun _ => { success := true, conflict := false })
    (fun _ => true) false true).1 rfl rfl rfl (fun _ => rfl) (fun _ => rfl)
